import Mathlib

/-!
Verification development for the context-augmentation and multi-provider
completion backend (`backend/` of the repository).  The Python source is
shallowly embedded: text is `List Char`, Python `int` is `Int`, fallible
or possibly non-terminating code returns `Option`/`Except`, and the
database rows touched by each operation are explicit record states.
-/

/-! ### Python slicing

`pySlice t a b` models the Python expression `t[a:b]` (step 1) on a string
`t` of characters: a negative bound counts from the end, and both bounds
are clamped to `[0, len]`. -/

/-- Clamp a Python slice bound `i` for a sequence of length `len`:
negative indices count from the end, then the result is clamped to
`[0, len]`. -/
def pyBound (len : Nat) (i : Int) : Nat :=
  if i < 0 then ((len : Int) + i).toNat else min i.toNat len

/-- Python `t[a:b]` (step 1) on a list of characters. -/
def pySlice (t : List Char) (a b : Int) : List Char :=
  (t.take (pyBound t.length b)).drop (pyBound t.length a)

/-! ### Chunker (`backend/shared/utils.py`, `chunk_text`)

The source is a `while start < text_length` loop that appends
`text[start:start+chunk_size]` and then sets `start = end - overlap`.
It performs no validation of `chunk_size`/`overlap`, so for some inputs
the loop never makes progress; the embedding therefore uses explicit
fuel, with `none` meaning the loop has not finished within the given
number of iterations (for all fuel: it never finishes). -/

/-- One fuel-counted unfolding of the `while` loop of `chunk_text`. -/
def chunkTextAux (fuel : Nat) (text : List Char) (chunkSize overlap : Int)
    (start : Int) : Option (List (List Char)) :=
  match fuel with
  | 0 => none
  | fuel + 1 =>
    if start < (text.length : Int) then
      match chunkTextAux fuel text chunkSize overlap (start + chunkSize - overlap) with
      | none => none
      | some rest => some (pySlice text start (start + chunkSize) :: rest)
    else
      some []

/-- `chunk_text(text, chunk_size, overlap)`.  Fuel `text.length + 1`
is enough for every configuration on which the source loop terminates
(it advances by at least one character per iteration exactly when
`overlap < chunk_size`); `none` models non-termination of the loop. -/
def chunk_text (text : List Char) (chunkSize overlap : Int) : Option (List (List Char)) :=
  chunkTextAux (text.length + 1) text chunkSize overlap 0

/-- Concatenation of chunks with the leading `overlap` characters
dropped from every chunk after the first (the lossless-reconstruction
reading of the spec). -/
def reconstructOverlap (overlap : Int) : List (List Char) → List Char
  | [] => []
  | c :: rest => c ++ (rest.map (List.drop overlap.toNat)).flatten

/-! ### Provider dispatch (`backend/chat/ai_client.py`, `AIClient.chat_completion`)

The dispatcher tests the requested model identifier against the family
name prefixes `claude`, `gemini`, `gemma` in that order, delegating to
the matching family's adapter; an identifier matching none of them
raises `ValueError("Unsupported model: ...")` before any adapter code
runs.  The second component of the result is the list of adapter
invocations performed by the call. -/

deriving instance DecidableEq for Except

/-- The three provider families with adapters in `AIClient`. -/
inductive ProviderFamily
  | claude
  | gemini
  | gemma
deriving DecidableEq

/-- `AIClient.chat_completion`'s closed model-identifier dispatch:
outcome (chosen family, or the `ValueError` message) paired with the
trace of adapter invocations. -/
def aiChatCompletionRoute (model : List Char) :
    Except (List Char) ProviderFamily × List ProviderFamily :=
  if "claude".toList.isPrefixOf model then
    (Except.ok ProviderFamily.claude, [ProviderFamily.claude])
  else if "gemini".toList.isPrefixOf model then
    (Except.ok ProviderFamily.gemini, [ProviderFamily.gemini])
  else if "gemma".toList.isPrefixOf model then
    (Except.ok ProviderFamily.gemma, [ProviderFamily.gemma])
  else
    (Except.error ("Unsupported model: ".toList ++ model), [])

/-! ### Gemini streaming (`backend/chat/ai_client.py`, `AIClient._gemini_stream`)

The generator initializes `total_tokens = 0`, yields a `content` event
for every provider chunk whose `text` is non-empty, and finally yields a
single `done` event carrying `total_tokens` — which is never updated in
the loop.  Provider chunks may carry usage metadata
(`usageTokens` below), but the source never reads it. -/

/-- A chunk of the provider's streaming response. -/
structure GeminiStreamChunk where
  text : List Char
  usageTokens : Nat
deriving DecidableEq

/-- The unified stream-event shape yielded by the adapters. -/
inductive StreamEvent
  | content (text : List Char)
  | done (id : List Char) (tokensUsed : Nat) (finishReason : List Char)
deriving DecidableEq

/-- Whether an event is the terminal `{type: done}` event. -/
def StreamEvent.isDone : StreamEvent → Bool
  | .done _ _ _ => true
  | .content _ => false

/-- The event sequence produced by `_gemini_stream` for a given sequence
of provider chunks. -/
def _gemini_stream (chunks : List GeminiStreamChunk) : List StreamEvent :=
  (chunks.filter (fun c => !c.text.isEmpty)).map (fun c => StreamEvent.content c.text)
    ++ [StreamEvent.done "gemini-stream".toList 0 "stop".toList]

/-! ### RAG service (`backend/rag/service.py`)

Documents and chunks are modelled as explicit row lists; embeddings as
rational vectors (`none` = SQL NULL).  `embed` stands for
`AIClient.generate_embedding`, already wrapped in the service's
`try/except`: an `Except.error` is the exception branch, which the
service logs and converts to a NULL embedding. -/

/-- A `document_chunks` row (the fields the claims are about). -/
structure DocumentChunkRow where
  documentId : Nat
  chunkIndex : Nat
  content : List Char
  embedding : Option (List ℚ)
deriving DecidableEq

/-- A `documents` row (the fields the claims are about). -/
structure DocumentRow where
  id : Nat
  userId : Nat
  title : List Char
  content : List Char
  sizeBytes : Nat
deriving DecidableEq

/-- The document-store state: the two tables touched by the RAG service. -/
structure RagDb where
  documents : List DocumentRow
  chunks : List DocumentChunkRow
deriving DecidableEq

/-- The chunks owned by a given document at a given state. -/
def RagDb.chunksOf (db : RagDb) (docId : Nat) : List DocumentChunkRow :=
  db.chunks.filter (fun c => c.documentId == docId)

/-- `RAGService.create_document`: inserts the document row, chunks the
content, and inserts one chunk row per chunk with `chunk_index` from
`enumerate` and the embedding attempt's result (`none` when the
embedding call raised).  `none` overall models the chunking loop not
terminating; `docId` stands for the fresh `uuid4()`. -/
def create_document (embed : List Char → Except (List Char) (List ℚ))
    (db : RagDb) (docId userId : Nat) (title content : List Char)
    (chunkSize overlap : Int) : Option RagDb :=
  (chunk_text content chunkSize overlap).map fun cs =>
    { documents := db.documents ++
        [⟨docId, userId, title, content, (String.mk content).utf8ByteSize⟩],
      chunks := db.chunks ++ cs.enum.map fun p =>
        ⟨docId, p.1, p.2, (embed p.2).toOption⟩ }

/-- `RAGService._rechunk_document`: the first statement of the source
executes `select(DocumentChunk).where(document_id == ...)` and discards
the result (its comment reads "Delete existing chunks", but no delete is
issued), so the existing chunk rows are left in place; then the new
content is chunked with the default parameters (1000, 200) and the new
chunk rows are added alongside the old ones. -/
def _rechunk_document (embed : List Char → Except (List Char) (List ℚ))
    (db : RagDb) (doc : DocumentRow) : Option RagDb :=
  (chunk_text doc.content 1000 200).map fun cs =>
    { db with chunks := db.chunks ++ cs.enum.map fun p =>
        ⟨doc.id, p.1, p.2, (embed p.2).toOption⟩ }

/-- Replace the row of `doc.id` in the `documents` table (the ORM
mutates the selected row in place; commit persists it). -/
def RagDb.setDocument (db : RagDb) (doc : DocumentRow) : RagDb :=
  { db with documents := db.documents.map fun d => if d.id = doc.id then doc else d }

/-- `RAGService.update_document`: looks the document up by id and owner
(`ValueError("Document not found")` otherwise), applies the optional
title update, and on a content update sets content and size and runs
`_rechunk_document`; commit persists the mutated row and the added
chunk rows. -/
def update_document (embed : List Char → Except (List Char) (List ℚ))
    (db : RagDb) (documentId userId : Nat)
    (newTitle newContent : Option (List Char)) : Except (List Char) RagDb :=
  match db.documents.find? (fun d => d.id == documentId && d.userId == userId) with
  | none => Except.error "Document not found".toList
  | some doc =>
    let doc1 := match newTitle with
      | some ti => { doc with title := ti }
      | none => doc
    match newContent with
    | none => Except.ok (db.setDocument doc1)
    | some c =>
      let doc2 : DocumentRow :=
        { doc1 with content := c, sizeBytes := (String.mk c).utf8ByteSize }
      match _rechunk_document embed db doc2 with
      | none => Except.error "chunking loop did not terminate".toList
      | some db2 => Except.ok (db2.setDocument doc2)

/-! ### Memory service (`backend/memory/service.py`, `search_memories`)

The search embeds the query (on failure: `[]`), filters by owner and
the optional type/chat filters, and orders by the single SQL key
`embedding <=> :query_embedding` ascending with `LIMIT`.  `d` is the
storage collaborator's vector-distance operator (`<=>`); a NULL
embedding gives a NULL key, which Postgres orders last (`NULLS LAST`
for ascending order).  The SQL `ORDER BY` has a single key and no
tie-break keys, so rows with equal distance come back in scan order;
this is modelled by a stable sort of the stored row list. -/

/-- A `memories` row (the fields the claims are about). -/
structure MemoryRow where
  userId : Nat
  chatId : Option Nat
  memoryType : List Char
  content : List Char
  embedding : Option (List ℚ)
  importanceScore : ℚ
  createdAt : Nat
deriving DecidableEq

/-- The `embedding <=> :query_embedding` sort key of a row: `none` = SQL
NULL (row has no embedding). -/
def memoryDistKey (d : List ℚ → List ℚ → ℚ) (q : List ℚ) (r : MemoryRow) : Option ℚ :=
  r.embedding.map fun e => d e q

/-- Ascending order on distance keys with NULL last (`ORDER BY ... ASC
NULLS LAST`). -/
def distLE : Option ℚ → Option ℚ → Bool
  | _, none => true
  | none, some _ => false
  | some a, some b => decide (a ≤ b)

/-- `MemoryService.search_memories`: query-embedding failure returns
`[]`; otherwise filter by owner, then optionally by memory type and by
chat, order by the single distance key, and apply the limit. -/
def search_memories (d : List ℚ → List ℚ → ℚ) (rows : List MemoryRow)
    (userId : Nat) (queryEmbedding : Option (List ℚ))
    (memoryTypeFilter : Option (List Char)) (chatIdFilter : Option Nat)
    (lim : Nat) : List MemoryRow :=
  match queryEmbedding with
  | none => []
  | some q =>
    let rows1 := rows.filter fun r => r.userId == userId
    let rows2 : List MemoryRow := match memoryTypeFilter with
      | some mt => rows1.filter fun r => r.memoryType == mt
      | none => rows1
    let rows3 : List MemoryRow := match chatIdFilter with
      | some cid => rows2.filter fun r => r.chatId == some cid
      | none => rows2
    (rows3.insertionSort fun a b =>
      distLE (memoryDistKey d q a) (memoryDistKey d q b) = true).take lim

/-- The order the claim asserts for a pair of consecutive results:
strictly closer to the query, or tied on distance and strictly more
important, or tied on both and at least as recent. -/
def claimedMemoryOrder (d : List ℚ → List ℚ → ℚ) (q : List ℚ)
    (a b : MemoryRow) : Bool :=
  let ka := memoryDistKey d q a
  let kb := memoryDistKey d q b
  (distLE ka kb && !distLE kb ka) ||
    (ka == kb && (decide (b.importanceScore < a.importanceScore) ||
      (a.importanceScore == b.importanceScore && decide (b.createdAt ≤ a.createdAt))))

/-- Whether a result list is ordered as the claim asserts (pairwise on
consecutive elements). -/
def claimedMemoryOrdered (d : List ℚ → List ℚ → ℚ) (q : List ℚ) :
    List MemoryRow → Bool
  | [] => true
  | [_] => true
  | a :: b :: rest => claimedMemoryOrder d q a b && claimedMemoryOrdered d q (b :: rest)

/-! ### Prompt assembly (`backend/chat/service.py`, `ChatService.chat_completion`)

`system_prompt = request.system_prompt or ""`, then for each of the
three optional context strings, in the fixed order memory → RAG → web,
a truthy (non-`None`, non-empty) context appends
`"\n\n## <Header>\n" + context`. -/

/-- The "## User Memory Context" section header line. -/
def memHeader : List Char := "## User Memory Context".toList

/-- The "## Retrieved Documents" section header line. -/
def ragHeader : List Char := "## Retrieved Documents".toList

/-- The "## Web Search Results" section header line. -/
def webHeader : List Char := "## Web Search Results".toList

/-- The text a truthy context appends: `"\n\n## <Header>\n" + context`;
a `None` or empty context appends nothing. -/
def sectionBlock (header : List Char) (ctx : Option (List Char)) : List Char :=
  match ctx with
  | none => []
  | some c => if c.isEmpty then [] else '\n' :: '\n' :: (header ++ '\n' :: c)

/-- The augmented system prompt built by `ChatService.chat_completion`
from the base prompt and the three optional contexts. -/
def buildSystemPrompt (basePrompt : Option (List Char))
    (memoryContext ragContext webContext : Option (List Char)) : List Char :=
  ((basePrompt.getD [] ++ sectionBlock memHeader memoryContext)
      ++ sectionBlock ragHeader ragContext)
    ++ sectionBlock webHeader webContext

/-- Split a character list into its newline-separated lines (the
sections of the prompt are identified by their header lines). -/
def splitNl : List Char → List (List Char)
  | [] => [[]]
  | ch :: rest =>
    if ch = '\n' then [] :: splitNl rest
    else
      match splitNl rest with
      | [] => [[ch]]
      | l :: ls => (ch :: l) :: ls

/-- The lines a section contributes to the prompt: nothing for an
absent/empty context, otherwise a blank line, the header line, and the
context's lines. -/
def sectionLines (header : List Char) (ctx : Option (List Char)) : List (List Char) :=
  match ctx with
  | none => []
  | some c => if c.isEmpty then [] else [[], header] ++ splitNl c

/-! ### Context fetch in the completion route (`backend/api/main.py`)

The route body awaits `get_rag_context_for_query` (when `use_rag`),
then `get_grounding_context` (when `use_web_grounding`), then
`get_relevant_memories_for_query`, one after the other: each awaited
call completes before the next one starts, so the fetches form a
sequential schedule and the added latency is the sum of the individual
durations. -/

/-- The three context sources of the assembler. -/
inductive ContextSource
  | rag
  | web
  | memory
deriving DecidableEq

/-- The ordered sequence of awaited context fetches in the route body. -/
def contextFetchSequence (useRag useWebGrounding : Bool) : List ContextSource :=
  (if useRag then [ContextSource.rag] else []) ++
    (if useWebGrounding then [ContextSource.web] else []) ++ [ContextSource.memory]

/-- Elapsed time of a schedule that awaits each fetch to completion
before starting the next (the route's schedule). -/
def sequentialElapsed (dur : ContextSource → Nat) (seq : List ContextSource) : Nat :=
  (seq.map dur).sum

/-- The duration of the slowest single source in a fetch sequence. -/
def slowestSource (dur : ContextSource → Nat) (seq : List ContextSource) : Nat :=
  (seq.map dur).foldr max 0

/-! ### Lemmas about the chunker -/

theorem pyBound_nonneg (len : Nat) (i : Int) (hi : 0 ≤ i) :
    pyBound len i = min i.toNat len := by
  simp [pyBound, not_lt.mpr hi]

theorem pySlice_nonneg (t : List Char) (a b : Int) (ha : 0 ≤ a) (hb : 0 ≤ b) :
    pySlice t a b = (t.drop a.toNat).take (b.toNat - a.toNat) := by
  rw [pySlice, pyBound_nonneg _ _ ha, pyBound_nonneg _ _ hb, List.drop_take]
  rcases le_or_lt a.toNat t.length with h1 | h1
  · rw [min_eq_left h1, List.take_eq_take]
    simp only [List.length_drop]
    omega
  · rw [min_eq_right (le_of_lt h1), List.drop_length,
      List.drop_of_length_le (le_of_lt h1)]
    simp

theorem chunkTextAux_stop (fuel : Nat) (t : List Char) (sz ov s : Int)
    (h : ¬ s < (t.length : Int)) :
    chunkTextAux (fuel + 1) t sz ov s = some [] := by
  simp [chunkTextAux, h]

theorem chunkTextAux_step (fuel : Nat) (t : List Char) (sz ov s : Int)
    (h : s < (t.length : Int)) :
    chunkTextAux (fuel + 1) t sz ov s =
      (chunkTextAux fuel t sz ov (s + sz - ov)).map (pySlice t s (s + sz) :: ·) := by
  simp only [chunkTextAux, if_pos h]
  cases chunkTextAux fuel t sz ov (s + sz - ov) <;> rfl

theorem chunkTextAux_isSome (t : List Char) (sz ov : Int) (_hov : 0 ≤ ov)
    (hlt : ov < sz) :
    ∀ (fuel : Nat) (s : Int), 0 ≤ s → ((t.length : Int) - s).toNat < fuel →
      (chunkTextAux fuel t sz ov s).isSome := by
  intro fuel
  induction fuel with
  | zero => intro s _ hf; omega
  | succ f ih =>
    intro s hs hf
    by_cases h : s < (t.length : Int)
    · rw [chunkTextAux_step _ _ _ _ _ h]
      have hrec := ih (s + sz - ov) (by omega) (by omega)
      cases hx : chunkTextAux f t sz ov (s + sz - ov) with
      | none => rw [hx] at hrec; simp at hrec
      | some rest => simp [hx]
    · rw [chunkTextAux_stop _ _ _ _ _ h]; rfl

theorem chunk_text_isSome (t : List Char) (sz ov : Int) (hov : 0 ≤ ov)
    (hlt : ov < sz) : (chunk_text t sz ov).isSome :=
  chunkTextAux_isSome t sz ov hov hlt (t.length + 1) 0 le_rfl (by omega)

theorem chunkTextAux_recon (t : List Char) (sz ov : Int) (hov : 0 ≤ ov)
    (hlt : ov < sz) :
    ∀ (fuel : Nat) (s : Int) (cs : List (List Char)), 0 ≤ s →
      chunkTextAux fuel t sz ov s = some cs →
      (cs.map (List.drop ov.toNat)).flatten = t.drop (s + ov).toNat := by
  intro fuel
  induction fuel with
  | zero => intro s cs _ h; exact absurd h (by simp [chunkTextAux])
  | succ f ih =>
    intro s cs hs h
    by_cases hin : s < (t.length : Int)
    · rw [chunkTextAux_step _ _ _ _ _ hin] at h
      cases hx : chunkTextAux f t sz ov (s + sz - ov) with
      | none => rw [hx] at h; simp at h
      | some rest =>
        rw [hx] at h
        have h' : pySlice t s (s + sz) :: rest = cs := by simpa using h
        subst h'
        have hr := ih (s + sz - ov) rest (by omega) hx
        rw [List.map_cons, List.flatten_cons, hr]
        rw [pySlice_nonneg t s (s + sz) hs (by omega), List.drop_take,
          List.drop_drop]
        have e1 : s + sz - ov + ov = s + sz := by ring
        rw [e1]
        have e2 : s.toNat + ov.toNat = (s + ov).toNat := by omega
        rw [e2]
        have e3 : t.drop (s + sz).toNat =
            (t.drop (s + ov).toNat).drop ((s + sz).toNat - s.toNat - ov.toNat) := by
          rw [List.drop_drop]; congr 1; omega
        rw [e3]
        exact List.take_append_drop _ _
    · rw [chunkTextAux_stop _ _ _ _ _ hin] at h
      cases h
      simp only [List.map_nil, List.flatten_nil]
      rw [List.drop_of_length_le (by omega)]

theorem chunk_text_length2500 (t : List Char) (hlen : t.length = 2500) :
    chunk_text t 1000 200 =
      some [t.take 1000, (t.drop 800).take 1000, (t.drop 1600).take 1000,
        (t.drop 2400).take 1000] := by
  have hl : (t.length : Int) = 2500 := by rw [hlen]; norm_num
  unfold chunk_text
  rw [hlen]
  rw [chunkTextAux_step 2500 t 1000 200 0 (by rw [hl]; norm_num)]
  rw [show (0 : Int) + 1000 - 200 = 800 by norm_num,
    show (0 : Int) + 1000 = 1000 by norm_num,
    show (2500 : Nat) = 2499 + 1 by norm_num]
  rw [chunkTextAux_step 2499 t 1000 200 800 (by rw [hl]; norm_num)]
  rw [show (800 : Int) + 1000 - 200 = 1600 by norm_num,
    show (800 : Int) + 1000 = 1800 by norm_num,
    show (2499 : Nat) = 2498 + 1 by norm_num]
  rw [chunkTextAux_step 2498 t 1000 200 1600 (by rw [hl]; norm_num)]
  rw [show (1600 : Int) + 1000 - 200 = 2400 by norm_num,
    show (1600 : Int) + 1000 = 2600 by norm_num,
    show (2498 : Nat) = 2497 + 1 by norm_num]
  rw [chunkTextAux_step 2497 t 1000 200 2400 (by rw [hl]; norm_num)]
  rw [show (2400 : Int) + 1000 - 200 = 3200 by norm_num,
    show (2400 : Int) + 1000 = 3400 by norm_num,
    show (2497 : Nat) = 2496 + 1 by norm_num]
  rw [chunkTextAux_stop 2496 t 1000 200 3200 (by rw [hl]; norm_num)]
  rw [pySlice_nonneg t 0 1000 (by norm_num) (by norm_num),
    pySlice_nonneg t 800 1800 (by norm_num) (by norm_num),
    pySlice_nonneg t 1600 2600 (by norm_num) (by norm_num),
    pySlice_nonneg t 2400 3400 (by norm_num) (by norm_num)]
  rfl

/-- C1: the claim says `chunk_text(text, size, overlap)` raises an
`InvalidConfiguration` error whenever `overlap >= size`.  The source
function performs no such validation: on the text `"ab"` with
`chunk_size = 1` and `overlap = 1` the loop variable `start` is reset to
`end - overlap = start` on every iteration, so the `while start <
text_length` loop never makes progress and never returns — for every
fuel bound the embedded loop is still running (`none`). -/
theorem chunk_text_overlap_eq_size_diverges :
    (∀ fuel : Nat, chunkTextAux fuel "ab".toList 1 1 0 = none) ∧
      chunk_text "ab".toList 1 1 = none := by
  have hdiv : ∀ fuel : Nat, chunkTextAux fuel "ab".toList 1 1 0 = none := by
    intro fuel
    induction fuel with
    | zero => rfl
    | succ f ih =>
      rw [chunkTextAux_step f _ _ _ _ (by decide)]
      rw [show (0 : Int) + 1 - 1 = 0 by norm_num, ih]
      rfl
  exact ⟨hdiv, hdiv _⟩

/-- C3 (amended): chunking any text of length 2500 with `chunk_size = 1000`
and `chunk_overlap = 200` yields exactly 4 chunks starting at positions
0, 800, 1600 and 2400, with lengths `[1000, 1000, 900, 100]` (the third
window `text[1600:2600]` and the fourth window `text[2400:3400]` are
clipped at the end of the text). -/
theorem chunk_text_2500_shape (t : List Char) (hlen : t.length = 2500) :
    ∃ cs, chunk_text t 1000 200 = some cs ∧
      cs = [t.take 1000, (t.drop 800).take 1000, (t.drop 1600).take 1000,
        (t.drop 2400).take 1000] ∧
      cs.map List.length = [1000, 1000, 900, 100] := by
  refine ⟨_, chunk_text_length2500 t hlen, rfl, ?_⟩
  simp only [List.map_cons, List.map_nil, List.length_take, List.length_drop, hlen]
  norm_num

/-- C3 witness: the shape theorem applied to a concrete length-2500 text. -/
theorem chunk_text_2500_shape_witness :
    (List.replicate 2500 'a').length = 2500 ∧
      ∃ cs, chunk_text (List.replicate 2500 'a') 1000 200 = some cs ∧
        cs = [(List.replicate 2500 'a').take 1000,
          ((List.replicate 2500 'a').drop 800).take 1000,
          ((List.replicate 2500 'a').drop 1600).take 1000,
          ((List.replicate 2500 'a').drop 2400).take 1000] ∧
        cs.map List.length = [1000, 1000, 900, 100] :=
  ⟨List.length_replicate 2500 'a', chunk_text_2500_shape _ (List.length_replicate 2500 'a')⟩

/-- C3 counterexample: on a concrete text of length 2500 the chunk lengths
are `[1000, 1000, 900, 100]`, not `[1000, 1000, 1000, 300]` as the claim
states. -/
theorem chunk_text_2500_lengths_ne_claimed :
    (chunk_text (List.replicate 2500 'a') 1000 200).map (List.map List.length)
      ≠ some [1000, 1000, 1000, 300] := by
  rw [chunk_text_length2500 _ (List.length_replicate 2500 'a')]
  simp only [Option.map_some', List.map_cons, List.map_nil, List.length_take,
    List.length_drop, List.length_replicate]
  norm_num

/-- C4: for every text and every chunk configuration with
`0 ≤ overlap < size`, `chunk_text` terminates and concatenating its
chunks, with the leading `overlap` characters dropped from every chunk
after the first, reconstructs the original text exactly. -/
theorem chunk_text_reconstructs (t : List Char) (sz ov : Int) (hov : 0 ≤ ov)
    (hlt : ov < sz) :
    ∃ cs, chunk_text t sz ov = some cs ∧ reconstructOverlap ov cs = t := by
  have hs := chunk_text_isSome t sz ov hov hlt
  cases hx : chunk_text t sz ov with
  | none => rw [hx] at hs; simp at hs
  | some cs =>
    refine ⟨cs, rfl, ?_⟩
    unfold chunk_text at hx
    by_cases h0 : (0 : Int) < (t.length : Int)
    · rw [chunkTextAux_step _ _ _ _ _ h0] at hx
      cases hy : chunkTextAux t.length t sz ov (0 + sz - ov) with
      | none => rw [hy] at hx; simp at hx
      | some rest =>
        rw [hy] at hx
        have h' : pySlice t 0 (0 + sz) :: rest = cs := by simpa using hx
        subst h'
        have hr := chunkTextAux_recon t sz ov hov hlt t.length (0 + sz - ov)
          rest (by omega) hy
        have e1 : 0 + sz - ov + ov = sz := by ring
        rw [e1] at hr
        rw [reconstructOverlap, hr, pySlice_nonneg t 0 (0 + sz) le_rfl (by omega)]
        have e2 : (0 : Int) + sz = sz := by ring
        rw [e2]
        simp only [Int.toNat_zero, List.drop_zero, Nat.sub_zero]
        exact List.take_append_drop _ _
    · rw [chunkTextAux_stop _ _ _ _ _ h0] at hx
      cases hx
      have ht : t = [] := List.eq_nil_of_length_eq_zero (by omega)
      subst ht
      rfl

/-- C4 witness: reconstruction at a concrete text and configuration. -/
theorem chunk_text_reconstructs_witness :
    (0 : Int) ≤ 4 ∧ (4 : Int) < 8 ∧
      ∃ cs, chunk_text "abcdefghij".toList 8 4 = some cs ∧
        reconstructOverlap 4 cs = "abcdefghij".toList :=
  ⟨by norm_num, by norm_num,
    chunk_text_reconstructs "abcdefghij".toList 8 4 (by norm_num) (by norm_num)⟩

/-! ### Provider dispatch and streaming -/

/-- C6: a completion request whose model identifier starts with none of
the family name prefixes `claude`, `gemini`, `gemma` fails with the
configuration error `ValueError("Unsupported model: ...")`, and no
adapter is constructed or invoked (empty invocation trace), so no
provider network call is attempted. -/
theorem ai_client_unknown_model (model : List Char)
    (h1 : "claude".toList.isPrefixOf model = false)
    (h2 : "gemini".toList.isPrefixOf model = false)
    (h3 : "gemma".toList.isPrefixOf model = false) :
    aiChatCompletionRoute model =
      (Except.error ("Unsupported model: ".toList ++ model), []) := by
  unfold aiChatCompletionRoute
  rw [h1, h2, h3]
  simp

/-- C6 witness: the dispatch theorem at the concrete identifier
`"gpt-4"`. -/
theorem ai_client_unknown_model_witness :
    ("claude".toList.isPrefixOf "gpt-4".toList = false ∧
      "gemini".toList.isPrefixOf "gpt-4".toList = false ∧
      "gemma".toList.isPrefixOf "gpt-4".toList = false) ∧
    aiChatCompletionRoute "gpt-4".toList =
      (Except.error ("Unsupported model: ".toList ++ "gpt-4".toList), []) :=
  ⟨⟨by decide, by decide, by decide⟩,
    ai_client_unknown_model "gpt-4".toList (by decide) (by decide) (by decide)⟩

/-- C10: for every provider chunk sequence, the stream produced by
`_gemini_stream` ends in a single terminal `done` event that reports
`tokens_used = 0` (the accumulator is initialized to zero and never
updated), regardless of how many content deltas were streamed and of
the usage metadata the provider chunks carried. -/
theorem gemini_stream_zero_tokens (chunks : List GeminiStreamChunk) :
    (_gemini_stream chunks).getLast? =
        some (StreamEvent.done "gemini-stream".toList 0 "stop".toList) ∧
      (_gemini_stream chunks).countP StreamEvent.isDone = 1 ∧
      ∀ e ∈ _gemini_stream chunks, ∀ i tk fr, e = StreamEvent.done i tk fr →
        tk = 0 := by
  refine ⟨?_, ?_, ?_⟩
  · rw [_gemini_stream, List.getLast?_concat]
  · rw [_gemini_stream, List.countP_append, List.countP_map]
    simp [StreamEvent.isDone, Function.comp_def]
  · intro e he i tk fr heq
    subst heq
    rw [_gemini_stream] at he
    rcases List.mem_append.mp he with h | h
    · obtain ⟨c, _, hc⟩ := List.mem_map.mp h
      exact absurd hc (by simp)
    · rw [List.mem_singleton] at h
      injection h

/-! ### Document ingestion and update -/

theorem countP_option_split {α β : Type} (g : α → Option β) (l : List α) :
    l.countP (fun x => (g x).isSome) + l.countP (fun x => (g x).isNone) = l.length := by
  induction l with
  | nil => rfl
  | cons a l ih =>
    rw [List.countP_cons, List.countP_cons, List.length_cons]
    cases h : g a <;> simp [h] <;> omega

theorem countP_enumFrom {α : Type} (q : α → Bool) :
    ∀ (n : Nat) (l : List α), (List.enumFrom n l).countP (fun p => q p.2) = l.countP q := by
  intro n l
  induction l generalizing n with
  | nil => rfl
  | cons a l ih =>
    rw [List.enumFrom_cons]
    rcases hq : q a with hv | hv <;>
      simp [List.countP_cons, hq, ih]

/-- C7: if the content of an ingested document chunks into three chunks
and the embedding call fails for exactly one of them, `create_document`
still succeeds, and the created document has exactly 3 chunks: two with
an embedding and one with a NULL embedding. -/
theorem create_document_partial_embedding_failure
    (embed : List Char → Except (List Char) (List ℚ)) (db : RagDb)
    (docId userId : Nat) (title content : List Char) (sz ov : Int)
    (cs : List (List Char))
    (hcs : chunk_text content sz ov = some cs)
    (hlen : cs.length = 3)
    (hfail : cs.countP (fun c => (embed c).toOption.isNone) = 1)
    (hfresh : ∀ c ∈ db.chunks, c.documentId ≠ docId) :
    ∃ db', create_document embed db docId userId title content sz ov = some db' ∧
      (db'.chunksOf docId).length = 3 ∧
      (db'.chunksOf docId).countP (fun c => c.embedding.isSome) = 2 ∧
      (db'.chunksOf docId).countP (fun c => c.embedding.isNone) = 1 := by
  rw [create_document, hcs, Option.map_some']
  refine ⟨_, rfl, ?_⟩
  have hold : db.chunks.filter (fun c => c.documentId == docId) = [] := by
    rw [List.filter_eq_nil_iff]
    intro c hc
    simpa using hfresh c hc
  have hnew :
      (cs.enum.map fun p =>
          (⟨docId, p.1, p.2, (embed p.2).toOption⟩ : DocumentChunkRow)).filter
        (fun c => c.documentId == docId) =
      cs.enum.map fun p => ⟨docId, p.1, p.2, (embed p.2).toOption⟩ := by
    rw [List.filter_eq_self]
    intro c hc
    obtain ⟨p, _, hp⟩ := List.mem_map.mp hc
    subst hp
    simp
  simp only [RagDb.chunksOf, List.filter_append, hold, hnew, List.nil_append]
  refine ⟨?_, ?_, ?_⟩
  · rw [List.length_map, List.enum_length, hlen]
  · rw [List.countP_map]
    have hcomp : ((fun c : DocumentChunkRow => c.embedding.isSome) ∘ fun p : Nat × List Char =>
        (⟨docId, p.1, p.2, (embed p.2).toOption⟩ : DocumentChunkRow)) =
        fun p : Nat × List Char => (embed p.2).toOption.isSome := rfl
    rw [hcomp, List.enum,
      countP_enumFrom (fun c => (embed c).toOption.isSome) 0 cs]
    have hsplit : cs.countP (fun c => (embed c).toOption.isSome) +
        cs.countP (fun c => (embed c).toOption.isNone) = cs.length :=
      countP_option_split (fun c => (embed c).toOption) cs
    omega
  · rw [List.countP_map]
    have hcomp : ((fun c : DocumentChunkRow => c.embedding.isNone) ∘ fun p : Nat × List Char =>
        (⟨docId, p.1, p.2, (embed p.2).toOption⟩ : DocumentChunkRow)) =
        fun p : Nat × List Char => (embed p.2).toOption.isNone := rfl
    rw [hcomp, List.enum,
      countP_enumFrom (fun c => (embed c).toOption.isNone) 0 cs]
    exact hfail

/-- C7 witness: the ingestion theorem at a concrete three-chunk content
whose middle chunk's embedding call fails. -/
theorem create_document_partial_embedding_failure_witness :
    (chunk_text "abc".toList 1 0 = some [['a'], ['b'], ['c']] ∧
      ([['a'], ['b'], ['c']] : List (List Char)).length = 3 ∧
      ([['a'], ['b'], ['c']] : List (List Char)).countP
        (fun c => ((if c = ['b'] then Except.error []
          else Except.ok [(1 : ℚ)]) : Except (List Char) (List ℚ)).toOption.isNone) = 1 ∧
      (∀ c ∈ (⟨[], []⟩ : RagDb).chunks, c.documentId ≠ 7)) ∧
    ∃ db', create_document
        (fun c => if c = ['b'] then Except.error [] else Except.ok [(1 : ℚ)])
        ⟨[], []⟩ 7 0 ['t'] "abc".toList 1 0 = some db' ∧
      (db'.chunksOf 7).length = 3 ∧
      (db'.chunksOf 7).countP (fun c => c.embedding.isSome) = 2 ∧
      (db'.chunksOf 7).countP (fun c => c.embedding.isNone) = 1 :=
  ⟨⟨by decide, by decide, by decide, by simp⟩,
    create_document_partial_embedding_failure
      (fun c => if c = ['b'] then Except.error [] else Except.ok [(1 : ℚ)])
      ⟨[], []⟩ 7 0 ['t'] "abc".toList 1 0 [['a'], ['b'], ['c']]
      (by decide) (by decide) (by decide) (by simp)⟩

/-- C2: the claim says `update_document` with new content discards all
existing chunks and leaves `chunk_index` unique and contiguous.  In the
source, `_rechunk_document`'s "Delete existing chunks" statement executes
a `select` instead of a delete, so after updating a one-chunk document's
content the old chunk row is still present next to the new one: the
committed state has two chunks for the document, both with
`chunk_index = 0` (neither unique nor a permutation of `0..n-1`), and the
stale content `"x"` survives alongside the new content `"ab"`. -/
theorem update_document_keeps_stale_chunks :
    ((update_document (fun _ => Except.error [])
        ⟨[⟨0, 0, ['t'], ['x'], 1⟩], [⟨0, 0, ['x'], none⟩]⟩ 0 0 none
        (some ['a', 'b'])).toOption.map fun db' =>
      db'.chunks.map fun c => (c.documentId, c.chunkIndex, c.content))
    = some [(0, 0, ['x']), (0, 0, ['a', 'b'])] := by decide

/-! ### Memory search ordering -/

theorem distLE_total (x y : Option ℚ) : distLE x y = true ∨ distLE y x = true := by
  cases x <;> cases y <;> simp [distLE]
  exact le_total _ _

theorem distLE_trans (x y z : Option ℚ) (h1 : distLE x y = true)
    (h2 : distLE y z = true) : distLE x z = true := by
  cases x <;> cases y <;> cases z <;> simp_all [distLE]
  exact le_trans h1 h2

/-- C5 (amended): `search_memories` returns its rows ordered by the
single SQL sort key — ascending embedding distance to the query
(descending similarity), NULL keys last; no importance or recency
tie-breaking is part of the query. -/
theorem search_memories_sorted_by_distance (d : List ℚ → List ℚ → ℚ)
    (rows : List MemoryRow) (userId : Nat) (q : List ℚ)
    (mt : Option (List Char)) (cid : Option Nat) (lim : Nat) :
    (search_memories d rows userId (some q) mt cid lim).Sorted
      (fun a b => distLE (memoryDistKey d q a) (memoryDistKey d q b) = true) := by
  haveI : IsTotal MemoryRow
      (fun a b => distLE (memoryDistKey d q a) (memoryDistKey d q b) = true) :=
    ⟨fun a b => distLE_total _ _⟩
  haveI : IsTrans MemoryRow
      (fun a b => distLE (memoryDistKey d q a) (memoryDistKey d q b) = true) :=
    ⟨fun _ _ _ => distLE_trans _ _ _⟩
  exact List.Pairwise.sublist (List.take_sublist _ _)
    (List.sorted_insertionSort _ _)

/-- C5 counterexample: two stored memories with identical embeddings
(hence equal distance for every distance operator), stored with the less
important one first, come back in stored order — the result is not
ordered by descending importance at the tie, refuting the claimed
tie-breaking. -/
theorem search_memories_tie_not_by_importance :
    claimedMemoryOrdered (fun _ _ => 0) [1]
      (search_memories (fun _ _ => 0)
        [⟨0, none, ['g'], ['a'], some [1], 0, 5⟩,
         ⟨0, none, ['g'], ['b'], some [1], 1, 5⟩]
        0 (some [1]) none none 10) = false := by decide

/-! ### Prompt assembly -/

theorem splitNl_ne_nil (l : List Char) : splitNl l ≠ [] := by
  cases l with
  | nil => simp [splitNl]
  | cons ch rest =>
    by_cases h : ch = '\n'
    · simp [splitNl, h]
    · simp only [splitNl, if_neg h]
      cases splitNl rest <;> simp

theorem splitNl_cons_newline (rest : List Char) :
    splitNl ('\n' :: rest) = [] :: splitNl rest := by
  simp [splitNl]

theorem splitNl_append_newline (a b : List Char) :
    splitNl (a ++ '\n' :: b) = splitNl a ++ splitNl b := by
  induction a with
  | nil => simp [splitNl]
  | cons ch a ih =>
    by_cases h : ch = '\n'
    · subst h
      rw [List.cons_append, splitNl_cons_newline, splitNl_cons_newline, ih,
        List.cons_append]
    · rw [List.cons_append]
      simp only [splitNl, if_neg h]
      rw [ih]
      cases hsa : splitNl a with
      | nil => exact absurd hsa (splitNl_ne_nil a)
      | cons l ls => simp

theorem splitNl_append_sectionBlock (x hd : List Char) (hh : splitNl hd = [hd])
    (ctx : Option (List Char)) :
    splitNl (x ++ sectionBlock hd ctx) = splitNl x ++ sectionLines hd ctx := by
  cases ctx with
  | none => simp [sectionBlock, sectionLines]
  | some c =>
    cases hc : c.isEmpty with
    | true => simp [sectionBlock, sectionLines, hc]
    | false =>
      simp only [sectionBlock, sectionLines, hc, Bool.false_eq_true, if_false]
      rw [show x ++ '\n' :: '\n' :: (hd ++ '\n' :: c) =
        x ++ '\n' :: ('\n' :: (hd ++ '\n' :: c)) from rfl]
      rw [splitNl_append_newline, splitNl_cons_newline, splitNl_append_newline, hh]
      simp

theorem splitNl_buildSystemPrompt (base m r w : Option (List Char)) :
    splitNl (buildSystemPrompt base m r w) =
      ((splitNl (base.getD []) ++ sectionLines memHeader m)
          ++ sectionLines ragHeader r) ++ sectionLines webHeader w := by
  rw [buildSystemPrompt,
    splitNl_append_sectionBlock _ _ (by decide) w,
    splitNl_append_sectionBlock _ _ (by decide) r,
    splitNl_append_sectionBlock _ _ (by decide) m]

/-- C8: the augmented system prompt is the caller-supplied base prompt
followed by the non-empty context sections under their header lines in
the fixed order memory → documents → web (first conjunct: the prompt's
lines are exactly the base's lines followed by each section's lines in
that order); in particular, with RAG and web grounding disabled and a
non-empty memory context, the prompt contains exactly one
"## User Memory Context" header line and no "## Retrieved Documents" or
"## Web Search Results" header line, provided neither the base prompt
nor the memory context itself contains a header line. -/
theorem chat_completion_prompt_sections :
    (∀ base m r w, splitNl (buildSystemPrompt base m r w) =
      ((splitNl (base.getD []) ++ sectionLines memHeader m)
          ++ sectionLines ragHeader r) ++ sectionLines webHeader w) ∧
    (∀ (base : Option (List Char)) (m : List Char), m ≠ [] →
      memHeader ∉ splitNl (base.getD []) →
      ragHeader ∉ splitNl (base.getD []) →
      webHeader ∉ splitNl (base.getD []) →
      memHeader ∉ splitNl m → ragHeader ∉ splitNl m → webHeader ∉ splitNl m →
      (splitNl (buildSystemPrompt base (some m) none none)).count memHeader = 1 ∧
      (splitNl (buildSystemPrompt base (some m) none none)).count ragHeader = 0 ∧
      (splitNl (buildSystemPrompt base (some m) none none)).count webHeader = 0) := by
  refine ⟨splitNl_buildSystemPrompt, ?_⟩
  intro base m hm hb1 hb2 hb3 hm1 hm2 hm3
  have hme : m.isEmpty = false := by
    cases m with
    | nil => exact absurd rfl hm
    | cons _ _ => rfl
  rw [splitNl_buildSystemPrompt]
  simp only [sectionLines, hme, Bool.false_eq_true, if_false, List.append_nil]
  refine ⟨?_, ?_, ?_⟩
  · rw [List.count_append, List.count_append,
      List.count_eq_zero.mpr hb1, List.count_eq_zero.mpr hm1]
    decide
  · rw [List.count_append, List.count_append,
      List.count_eq_zero.mpr hb2, List.count_eq_zero.mpr hm2]
    decide
  · rw [List.count_append, List.count_append,
      List.count_eq_zero.mpr hb3, List.count_eq_zero.mpr hm3]
    decide

/-- C8 witness: the section theorem at a concrete request with no base
prompt and the memory context `"hi"`. -/
theorem chat_completion_prompt_sections_witness :
    ((['h', 'i'] : List Char) ≠ [] ∧
      memHeader ∉ splitNl ((none : Option (List Char)).getD []) ∧
      ragHeader ∉ splitNl ((none : Option (List Char)).getD []) ∧
      webHeader ∉ splitNl ((none : Option (List Char)).getD []) ∧
      memHeader ∉ splitNl ['h', 'i'] ∧
      ragHeader ∉ splitNl ['h', 'i'] ∧
      webHeader ∉ splitNl ['h', 'i']) ∧
    (splitNl (buildSystemPrompt none (some ['h', 'i']) none none)).count memHeader = 1 ∧
    (splitNl (buildSystemPrompt none (some ['h', 'i']) none none)).count ragHeader = 0 ∧
    (splitNl (buildSystemPrompt none (some ['h', 'i']) none none)).count webHeader = 0 :=
  ⟨⟨by decide, by decide, by decide, by decide, by decide, by decide, by decide⟩,
    chat_completion_prompt_sections.2 none ['h', 'i'] (by decide) (by decide)
      (by decide) (by decide) (by decide) (by decide) (by decide)⟩

/-! ### Context-fetch schedule in the completion route -/

/-- C9 (amended): the route awaits the three context fetches one after
the other (RAG if enabled, then web grounding if enabled, then memory),
so the added latency is the sum of the enabled sources' durations, not
the maximum. -/
theorem route_context_fetch_sequential_sum (dur : ContextSource → Nat)
    (useRag useWeb : Bool) :
    sequentialElapsed dur (contextFetchSequence useRag useWeb) =
      (if useRag then dur ContextSource.rag else 0) +
        (if useWeb then dur ContextSource.web else 0) +
        dur ContextSource.memory := by
  cases useRag <;> cases useWeb <;>
    (simp [sequentialElapsed, contextFetchSequence]; try omega)

/-- C9 counterexample: with all three sources enabled and each taking
one unit of time, the route's schedule takes 3 units — not bounded by
the slowest single source (1 unit), refuting concurrent execution. -/
theorem route_context_fetch_latency_exceeds_slowest :
    sequentialElapsed (fun _ => 1) (contextFetchSequence true true) = 3 ∧
      ¬ (sequentialElapsed (fun _ => 1) (contextFetchSequence true true) ≤
          slowestSource (fun _ => 1) (contextFetchSequence true true)) := by
  decide
